import Mathlib

/-!
# Verification of the batched agent manager (`rlgym_ppo/batched_agents/batched_agent_manager.py`)

Shallow embedding of `BatchedAgentManager`: the round-robin collection loop
(`_collect_responses`), the env-step-data message decoder inlined in that loop,
the reward-average tracker, the action dispatch split (`_send_actions`), and the
trajectory flattening done at the end of `collect_timesteps`.

Numeric payload elements (float32 in the source) are modelled as rationals `ℚ`,
so the smoothing and accumulation identities are exact.  Python list/numpy
slicing (which clamps out-of-range bounds) is modelled with `List.drop`/`List.take`;
a Python `IndexError` or `np.reshape` `ValueError` — uncaught exceptions in the
source — are modelled by an explicit error result that propagates out of the loop.
-/

deriving instance DecidableEq for Except

/-- An observation block as held in `next_obs` / `current_obs`: the flattened
float data together with the numpy shape it was reshaped to. -/
abbrev ObsBlock := List ℚ × List ℕ

/-- A raw message received on a worker pipe.  The source reads a flat float32
buffer and splits `message[:HEADER_LEN]` / `message[HEADER_LEN:]`; the manager
only ever inspects `header[0]` (line 205), so we keep that single element as
`header` and the remainder as `payload`.  (`comm_consts` is not under src/.) -/
structure RawMsg where
  header : ℚ
  payload : List ℚ
deriving DecidableEq

/-- Modelled from the spec: the first element of `comm_consts.ENV_STEP_DATA_HEADER`
(module `rlgym_ppo.batched_agents.comm_consts`, not under src/).  Only its identity
(equal / not equal to a received header) matters to the manager. -/
def ENV_STEP_DATA_HEADER0 : ℚ := 2

/-- Uncaught Python exceptions raised while decoding an env-step-data payload. -/
inductive DecodeErr where
  /-- `IndexError`: `message[0]`/`message[1]` on a too-short buffer, or
  `state_shape[0]` on an empty shape list (line 211/213). -/
  | indexError
  /-- `ValueError` from `np.reshape` (line 217): element count of the remaining
  payload does not match the product of the declared state shape. -/
  | reshapeError
deriving DecidableEq

/-- Python `int(x)` on a nonnegative float: truncation toward zero.  The source
applies `int` to shape elements and to `n_shape_dims` (lines 207-208). -/
def ratTruncToNat (q : ℚ) : ℕ := q.num.toNat / q.den

/-- `np.reshape(data, shape)` (line 217): succeeds exactly when the element
count matches the shape product, else raises `ValueError`. -/
def reshapeCheck (data : List ℚ) (shape : List ℕ) : Except DecodeErr ObsBlock :=
  if data.length = shape.prod then .ok (data, shape) else .error .reshapeError

/-- The decoded fields of an env-step-data message, as produced by
lines 206-217 of `_collect_responses`. -/
structure StepData where
  done : ℚ
  stateShape : List ℕ
  nAgents : ℕ
  rews : List ℚ
  nextObs : ObsBlock
deriving DecidableEq

/-- Decoding of an env-step-data payload, lines 206-217 of the source:

    done = message[0]
    n_elements_in_state_shape = int(message[1])
    state_shape = [int(arg) for arg in message[2:2 + n_elements_in_state_shape]]
    if n_elements_in_state_shape == 1:
        n_agents = 1;  state_shape = [1, state_shape[0]]
    else:
        n_agents = state_shape[0]
    rew_start = 2 + n_elements_in_state_shape
    rews = message[rew_start:rew_start + n_agents]
    next_observation = np.reshape(message[rew_start + n_agents:], state_shape)

Slices clamp like Python slices; indexing an empty list raises (`indexError`),
and the reshape raises when the element count mismatches (`reshapeError`). -/
def decodeEnvStepData (message : List ℚ) : Except DecodeErr StepData :=
  match message with
  | done :: nRaw :: rest =>
    let n := ratTruncToNat nRaw
    let shape0 := (rest.take n).map ratTruncToNat
    let naShape : Except DecodeErr (ℕ × List ℕ) :=
      if n = 1 then
        match shape0 with
        | [] => .error .indexError
        | s0 :: _ => .ok (1, [1, s0])
      else
        match shape0 with
        | [] => .error .indexError
        | s0 :: _ => .ok (s0, shape0)
    match naShape with
    | .error e => .error e
    | .ok (nAgents, stateShape) =>
      let rews := (rest.drop n).take nAgents
      let obsFlat := rest.drop (n + nAgents)
      match reshapeCheck obsFlat stateShape with
      | .error e => .error e
      | .ok obs => .ok ⟨done, stateShape, nAgents, rews, obs⟩
  | _ => .error .indexError

example :
    decodeEnvStepData [0, 1, 1, 5, 7] =
      .ok ⟨0, [1, 1], 1, [5], ([7], [1, 1])⟩ := by decide

example :
    decodeEnvStepData [1, 2, 2, 3, 4, 5, 1, 2, 3, 4, 5, 6] =
      .ok ⟨1, [2, 3], 2, [4, 5], ([1, 2, 3, 4, 5, 6], [2, 3])⟩ := by decide

-- declared dim count exceeds payload: reshape of the (short) remainder fails
example :
    decodeEnvStepData [0, 5, 2, 3] = .error .reshapeError := by decide

/-- The mutable state of `BatchedAgentManager` that `_collect_responses` reads
and writes: the per-worker pipes (as queues of undelivered messages, front =
next `recv_bytes`), the rotating cursor `self.buffer_ptr`, the per-worker
reward accumulators `self.ep_rews` (indexed by worker id), and the global
smoothed reward `self.average_reward` (`None` until the first episode ends).
The worker count `self.n_procs` is `queues.length`. -/
structure MgrState where
  queues : List (List RawMsg)
  bufferPtr : ℕ
  epRews : List (List ℚ)
  averageReward : Option ℚ
deriving DecidableEq

/-- Cursor advance, lines 193-195 of the source:
`buffer_ptr += 1; if buffer_ptr >= n_procs: buffer_ptr = 0`. -/
def advancePtr (nProcs ptr : ℕ) : ℕ :=
  if ptr + 1 ≥ nProcs then 0 else ptr + 1

/-- The worker id inspected `k` channel inspections after the cursor sits at
`ptr`: the cursor advances by exactly one (wrapped) per inspection. -/
def inspectSeq (nProcs ptr : ℕ) : ℕ → ℕ
  | 0 => ptr
  | k + 1 => inspectSeq nProcs (advancePtr nProcs ptr) k

/-- Reward accumulation, lines 219-229 of the source.  Multi-agent
(`n_agents > 1`): each agent's reward is added to the matching slot of
`ep_rews[proc_id]`, appending when the index is new.  Otherwise the sole
slot 0 is incremented (`ep_rews[proc_id][0] += rews[0]`); the accumulator is
initialized to `[0]` and reset to `[0]`, so it is never empty there. -/
def accumulateRews (acc : List ℚ) (rews : List ℚ) (nAgents : ℕ) : List ℚ :=
  if 1 < nAgents then
    (List.range nAgents).foldl
      (fun a i =>
        if a.length ≤ i then a ++ [rews.getD i 0]
        else a.set i (a.getD i 0 + rews.getD i 0))
      acc
  else
    match acc with
    | [] => []
    | x :: xs => (x + rews.getD 0 0) :: xs

/-- Global average update on `done`, lines 231-236 of the source: seeded with
`ep_rews[proc_id][0]` when still `None`, else smoothed once per accumulated
per-agent total, in accumulator order:
`self.average_reward = self.average_reward * 0.9 + ep_rew * 0.1`. -/
def updateAverageReward (avg : Option ℚ) (totals : List ℚ) : ℚ :=
  match avg with
  | none => totals.headD 0
  | some a => totals.foldl (fun acc r => acc * (9 / 10) + r * (1 / 10)) a

/-- The state update performed for one successfully decoded env-step-data
message (lines 219-244): accumulate rewards for worker `pid`; bump the running
count by `n_agents` (by 1 in the single-agent branch); if `done` is truthy,
fold the accumulated totals into the global average and reset the worker's
accumulator to `[0]`.  Returns the new state and the count increment. -/
def applyStepData (st : MgrState) (pid : ℕ) (d : StepData) : MgrState × ℕ :=
  let acc := accumulateRews (st.epRews.getD pid []) d.rews d.nAgents
  let inc := if 1 < d.nAgents then d.nAgents else 1
  if d.done ≠ 0 then
    ({ st with
        averageReward := some (updateAverageReward st.averageReward acc),
        epRews := st.epRews.set pid [0] }, inc)
  else
    ({ st with epRews := st.epRews.set pid acc }, inc)

/-- What one call of `_collect_responses` ends with. -/
inductive LoopResult where
  /-- An uncaught decode exception propagates out of `_collect_responses`
  (there is no try/except in the loop), aborting the whole call. -/
  | err (e : DecodeErr)
  /-- Fuel exhausted: the `while` loop is still running in this state.  (The
  source loop has no fuel; this constructor marks a run we cut short.) -/
  | spinning (st : MgrState) (cnt : ℕ) (obs : List ObsBlock) (pids : List ℕ)
  /-- The loop condition `n_collected < n_obs_per_inference` failed: the round
  is over.  The final cursor is stored back into the state (line 246). -/
  | finished (st : MgrState) (cnt : ℕ) (obs : List ObsBlock) (pids : List ℕ)
deriving DecidableEq

/-- The `while n_collected < n_obs_per_inference` loop of `_collect_responses`
(lines 188-246), fuel-indexed.  Each iteration: read the worker at the cursor,
advance the cursor (wrapping at `n_procs`); if no message is pending, continue;
otherwise pop the message; on a non-env-step-data header the message is
discarded and the loop just continues; otherwise decode (an exception aborts
the call) and apply the update, appending the decoded next observation and the
worker id to `next_obs` / `next_pids` in lockstep. -/
def collectLoop (nObs : ℕ) :
    ℕ → MgrState → ℕ → List ObsBlock → List ℕ → LoopResult
  | 0, st, cnt, obs, pids => .spinning st cnt obs pids
  | fuel + 1, st, cnt, obs, pids =>
    if cnt < nObs then
      let pid := st.bufferPtr
      let ptr := advancePtr st.queues.length pid
      match st.queues.getD pid [] with
      | [] => collectLoop nObs fuel { st with bufferPtr := ptr } cnt obs pids
      | msg :: rest =>
        let st1 : MgrState :=
          { st with bufferPtr := ptr, queues := st.queues.set pid rest }
        if msg.header = ENV_STEP_DATA_HEADER0 then
          match decodeEnvStepData msg.payload with
          | .error e => .err e
          | .ok d =>
            let su := applyStepData st1 pid d
            collectLoop nObs fuel su.1 (cnt + su.2)
              (obs ++ [d.nextObs]) (pids ++ [pid])
        else collectLoop nObs fuel st1 cnt obs pids
    else .finished st cnt obs pids

/-- `n_obs_per_inference = min(self.min_inference_size, max(1, len(self.processes)))`
(lines 68-69 of `collect_timesteps`). -/
def nObsPerInference (minInferenceSize nWorkers : ℕ) : ℕ :=
  min minInferenceSize (max 1 nWorkers)

/-- The accumulation skeleton of the outer `while n_collected < n` loop of
`collect_timesteps` (lines 72-80): `rounds` is the stream of successive return
values of `_collect_responses`; the loop ends once the cumulative count reaches
`n`.  `none` means the provided stream ran out with the loop still running. -/
def collectTimestepsCount (n cnt : ℕ) (rounds : List ℕ) : Option ℕ :=
  if cnt < n then
    match rounds with
    | [] => none
    | r :: rs => collectTimestepsCount n (cnt + r) rs
  else some cnt

example : collectTimestepsCount 3 0 [2, 2, 9] = some 4 := by decide
example : collectTimestepsCount 0 0 [5] = some 0 := by decide

/-- The slicing loop of `_send_actions` (lines 154-169): walking
`zip(current_pids, dimensions)` with a running offset `step`, worker `pid`
is sent `actions[step : step + dim_0]` (a Python slice, clamping out-of-range
bounds) and `step` advances by `dim_0`.  `α` is the row type of the batch.
Returns the `(proc_id, action slice)` messages in send order.  No size check
of any kind is performed on `actions`. -/
def sliceSends {α : Type} (actions : List α) :
    List (ℕ × ℕ) → ℕ → List (ℕ × List α)
  | [], _ => []
  | (pid, d) :: ps, step =>
    (pid, (actions.drop step).take d) :: sliceSends actions ps (step + d)

/-- `_send_actions` (lines 146-169): `dimensions[i] = current_obs[i].shape[0]`
(the leading dimension of each observation block), and the action batch
returned by the policy is split by those recorded block sizes in the original
worker order. -/
def sendActions {α : Type} (pids : List ℕ) (currentObs : List ObsBlock)
    (actions : List α) : List (ℕ × List α) :=
  sliceSends actions (pids.zip (currentObs.map fun o => o.2.headD 0)) 0

/-- Truncation flags for one completed segment, lines 105-106 of
`collect_timesteps`:

    trajectory_truncated = [0 for _ in range(len(trajectory_dones))]
    trajectory_truncated[-1] = 1 if trajectory_dones[-1] == 0 else 0

(On an empty dones list the source would raise `IndexError`; segments are
never empty, and this function returns `[]` there.) -/
def truncatedFlags (ds : List ℚ) : List ℚ :=
  if ds = [] then []
  else ds.dropLast.map (fun _ => (0 : ℚ)) ++ [if ds.getLastD 0 = 0 then 1 else 0]

example : truncatedFlags [0, 0, 1] = [0, 0, 0] := by decide
example : truncatedFlags [0, 0, 0] = [0, 0, 1] := by decide

/-- One step record held by a trajectory buffer (§3 of the spec: StepRecord). -/
structure Step where
  state : List ℚ
  action : List ℚ
  logProb : ℚ
  reward : ℚ
  nextState : List ℚ
  done : ℚ
deriving DecidableEq

/-- Modelled from the spec: `BatchedTrajectory`
(module `rlgym_ppo.batched_agents.batched_trajectory`, not under src/).
Per §4.3 it accumulates step records, detaches a completed segment whenever a
`done` is observed, and keeps the still-open steps since the last boundary.
`completedSegs` are the episode-terminated segments it closed, `pendingSeg`
the still-open accumulation. -/
structure BatchedTrajectory where
  completedSegs : List (List Step)
  pendingSeg : List Step
deriving DecidableEq

/-- Modelled from the spec: `BatchedTrajectory.get_all()` as consumed at
lines 92-94 of `collect_timesteps`: every completed segment, plus the forced
truncation-boundary drain of the still-open steps — and per §4.3
("an empty buffer drains to nothing, never an empty segment") the drain of an
empty accumulation contributes nothing. -/
def BatchedTrajectory.getAll (t : BatchedTrajectory) : List (List Step) :=
  t.completedSegs ++ (if t.pendingSeg = [] then [] else [t.pendingSeg])

/-- A buffer holding no completed steps at the end-of-collection flush. -/
def emptyTrajectory : BatchedTrajectory := ⟨[], []⟩

/-- The segments flattened by lines 91-113 of `collect_timesteps`, in
buffer-then-segment order.  (The source's `if len(trajectories) == 0: continue`
skips buffers with no segments; iterating an empty list contributes nothing
either way.) -/
def flattenSegments (bufs : List BatchedTrajectory) : List (List Step) :=
  (bufs.map BatchedTrajectory.getAll).flatten

/-- The flattened `dones` output array (segment-then-step order). -/
def flattenDones (bufs : List BatchedTrajectory) : List ℚ :=
  ((flattenSegments bufs).map fun seg => seg.map Step.done).flatten

/-- The flattened `truncated` output array (segment-then-step order),
computed per segment from its dones by `truncatedFlags`. -/
def flattenTruncated (bufs : List BatchedTrajectory) : List ℚ :=
  ((flattenSegments bufs).map fun seg => truncatedFlags (seg.map Step.done)).flatten


/-! ## Theorems -/

theorem truncatedFlags_getD_zero (ds : List ℚ) (i : ℕ) (h : i + 1 < ds.length) :
    (truncatedFlags ds).getD i 0 = 0 := by
  have hne : ds ≠ [] := by
    intro he
    simp [he] at h
  rw [truncatedFlags, if_neg hne]
  have hi : i < (ds.dropLast.map fun _ => (0 : ℚ)).length := by
    simp [List.length_dropLast]
    omega
  rw [List.getD_append _ _ _ _ hi]
  rcases Nat.lt_or_ge i ds.dropLast.length with hlt | hge
  · rw [List.getD_eq_getElem _ _ hi]
    simp
  · rw [List.getD_eq_default]
    simpa using hge

/-- C1: for every completed segment flattened by `collect_timesteps`, the
truncation flags computed at lines 105-106 have the same length as the
segment's `dones`, the final flag is `1` iff the final `done` is `0`, a
segment closed by a true terminal (`done = 1`) gets final flag `0`, and every
non-final flag is `0`. -/
theorem collect_timesteps_truncation_iff_not_done (ds : List ℚ) (h : ds ≠ []) :
    (truncatedFlags ds).length = ds.length ∧
    ((truncatedFlags ds).getLastD 0 = 1 ↔ ds.getLastD 0 = 0) ∧
    (ds.getLastD 0 = 1 → (truncatedFlags ds).getLastD 0 = 0) ∧
    (∀ i, i + 1 < ds.length → (truncatedFlags ds).getD i 0 = 0) := by
  have hlen : 0 < ds.length := List.length_pos.mpr h
  refine ⟨?_, ?_, ?_, fun i hi => truncatedFlags_getD_zero ds i hi⟩
  · rw [truncatedFlags, if_neg h]
    simp [List.length_dropLast]
    omega
  · rw [truncatedFlags, if_neg h, List.getLastD_concat]
    constructor
    · intro h1
      by_contra hne
      rw [if_neg hne] at h1
      exact absurd h1 (by norm_num)
    · intro h0
      rw [if_pos h0]
  · intro h1
    rw [truncatedFlags, if_neg h, List.getLastD_concat, if_neg (by rw [h1]; norm_num)]

/-- C1 witness: a two-step segment ending in a true terminal. -/
theorem collect_timesteps_truncation_iff_not_done_witness :
    ([(0 : ℚ), 1] ≠ []) ∧
    ((truncatedFlags [(0 : ℚ), 1]).length = 2 ∧
      ((truncatedFlags [(0 : ℚ), 1]).getLastD 0 = 1 ↔ [(0 : ℚ), 1].getLastD 0 = 0) ∧
      ([(0 : ℚ), 1].getLastD 0 = 1 → (truncatedFlags [(0 : ℚ), 1]).getLastD 0 = 0) ∧
      (∀ i, i + 1 < [(0 : ℚ), 1].length → (truncatedFlags [(0 : ℚ), 1]).getD i 0 = 0)) :=
  ⟨by decide, collect_timesteps_truncation_iff_not_done [0, 1] (by decide)⟩

/-- C2: on a `done` message the global average reward is updated from the
worker's accumulated per-agent totals: seeded when undefined; otherwise folded
sequentially in accumulator order by `avg = avg*0.9 + total*0.1`; a fresh
tracker's first completed episode total `r0` yields exactly `r0`, and a second
completed single-agent episode total `r1` yields exactly `0.9*r0 + 0.1*r1`;
afterwards the worker's accumulator is reset to `[0]`. -/
theorem averageReward_update_on_done (st : MgrState) (pid : ℕ) (d : StepData)
    (a r0 r1 t : ℚ) (ts : List ℚ)
    (hpid : pid < st.epRews.length) (hdone : d.done ≠ 0) :
    updateAverageReward none [r0] = r0 ∧
    updateAverageReward (some r0) [r1] = r0 * (9 / 10) + r1 * (1 / 10) ∧
    updateAverageReward (some a) (t :: ts)
      = updateAverageReward (some (a * (9 / 10) + t * (1 / 10))) ts ∧
    (applyStepData st pid d).1.averageReward
      = some (updateAverageReward st.averageReward
          (accumulateRews (st.epRews.getD pid []) d.rews d.nAgents)) ∧
    (applyStepData st pid d).1.epRews.getD pid [] = [0] := by
  refine ⟨rfl, rfl, rfl, ?_, ?_⟩
  · rw [applyStepData, if_pos hdone]
  · rw [applyStepData, if_pos hdone]
    have hlen : pid < (st.epRews.set pid [0]).length := by
      rwa [List.length_set]
    rw [List.getD_eq_getElem _ _ hlen]
    simp

/-- C2 witness: a single-agent worker finishing an episode. -/
theorem averageReward_update_on_done_witness :
    ((0 : ℕ) < (MgrState.mk [] 0 [[3]] none).epRews.length ∧
      (StepData.mk 1 [1, 1] 1 [5] ([7], [1, 1])).done ≠ 0) ∧
    (updateAverageReward none [(3 : ℚ)] = 3 ∧
      updateAverageReward (some 3) [(4 : ℚ)] = 3 * (9 / 10) + 4 * (1 / 10) ∧
      updateAverageReward (some 2) ((5 : ℚ) :: [6])
        = updateAverageReward (some (2 * (9 / 10) + 5 * (1 / 10))) [6] ∧
      (applyStepData (MgrState.mk [] 0 [[3]] none) 0
          (StepData.mk 1 [1, 1] 1 [5] ([7], [1, 1]))).1.averageReward
        = some (updateAverageReward (MgrState.mk [] 0 [[3]] none).averageReward
            (accumulateRews ((MgrState.mk [] 0 [[3]] none).epRews.getD 0 [])
              (StepData.mk 1 [1, 1] 1 [5] ([7], [1, 1])).rews
              (StepData.mk 1 [1, 1] 1 [5] ([7], [1, 1])).nAgents)) ∧
      (applyStepData (MgrState.mk [] 0 [[3]] none) 0
          (StepData.mk 1 [1, 1] 1 [5] ([7], [1, 1]))).1.epRews.getD 0 [] = [0]) :=
  ⟨⟨by decide, by decide⟩,
    averageReward_update_on_done (MgrState.mk [] 0 [[3]] none) 0
      (StepData.mk 1 [1, 1] 1 [5] ([7], [1, 1])) 2 3 4 5 [6]
      (by decide) (by decide)⟩

theorem collectTimestepsCount_ge (n : ℕ) :
    ∀ (rounds : List ℕ) (cnt c : ℕ),
      collectTimestepsCount n cnt rounds = some c → n ≤ c := by
  intro rounds
  induction rounds with
  | nil =>
    intro cnt c h
    rw [collectTimestepsCount.eq_def] at h
    split at h
    · exact absurd h (by simp)
    · next hge =>
      cases h
      omega
  | cons r rs ih =>
    intro cnt c h
    rw [collectTimestepsCount.eq_def] at h
    split at h
    · exact ih _ _ h
    · next hge =>
      cases h
      omega

theorem collectTimestepsCount_overshoot (n : ℕ) :
    ∀ (rounds : List ℕ) (cnt c : ℕ), cnt < n →
      collectTimestepsCount n cnt rounds = some c → ∃ r ∈ rounds, c < n + r := by
  intro rounds
  induction rounds with
  | nil =>
    intro cnt c hlt h
    rw [collectTimestepsCount.eq_def, if_pos hlt] at h
    exact absurd h (by simp)
  | cons r rs ih =>
    intro cnt c hlt h
    rw [collectTimestepsCount.eq_def, if_pos hlt] at h
    rcases Nat.lt_or_ge (cnt + r) n with hlt' | hge
    · obtain ⟨r', hr', hc⟩ := ih _ _ hlt' h
      exact ⟨r', List.mem_cons_of_mem _ hr', hc⟩
    · change collectTimestepsCount n (cnt + r) rs = some c at h
      rw [collectTimestepsCount.eq_def, if_neg (by omega)] at h
      cases h
      exact ⟨r, List.mem_cons_self _ _, by omega⟩

/-- C4: whenever `collect_timesteps(n)`'s accumulation loop returns (`rounds`
being the stream of successive `_collect_responses` return values), the
returned count is at least `n`, and it exceeds `n` only by the overshoot of
the final round: either no round ran (`c = 0`, only when `n = 0`) or the count
minus some round's contribution is still below `n`. -/
theorem collect_timesteps_count_ge (n c : ℕ) (rounds : List ℕ)
    (h : collectTimestepsCount n 0 rounds = some c) :
    n ≤ c ∧ (c = 0 ∨ ∃ r ∈ rounds, c < n + r) := by
  refine ⟨collectTimestepsCount_ge n rounds 0 c h, ?_⟩
  rcases Nat.eq_zero_or_pos n with hn | hn
  · subst hn
    rw [collectTimestepsCount.eq_def] at h
    simp at h
    exact Or.inl h.symm
  · exact Or.inr (collectTimestepsCount_overshoot n rounds 0 c hn h)

/-- C4 witness: `n = 3` with rounds contributing `2` then `2`. -/
theorem collect_timesteps_count_ge_witness :
    collectTimestepsCount 3 0 [2, 2] = some 4 ∧
    (3 ≤ 4 ∧ (4 = 0 ∨ ∃ r ∈ [2, 2], 4 < 3 + r)) :=
  ⟨by decide, collect_timesteps_count_ge 3 4 [2, 2] (by decide)⟩

theorem advancePtr_eq_mod (n c : ℕ) (hc : c < n) : advancePtr n c = (c + 1) % n := by
  rw [advancePtr]
  split
  · next hge =>
    have : c + 1 = n := by omega
    rw [this, Nat.mod_self]
  · next hlt =>
    rw [Nat.mod_eq_of_lt (by omega)]

theorem advancePtr_lt (n c : ℕ) (hn : 0 < n) : advancePtr n c < n := by
  rw [advancePtr]
  split
  · exact hn
  · omega

theorem inspectSeq_eq_mod (n : ℕ) :
    ∀ (k c : ℕ), c < n → inspectSeq n c k = (c + k) % n := by
  intro k
  induction k with
  | zero =>
    intro c hc
    rw [inspectSeq, Nat.add_zero, Nat.mod_eq_of_lt hc]
  | succ k ih =>
    intro c hc
    have hn : 0 < n := by omega
    rw [inspectSeq, ih (advancePtr n c) (advancePtr_lt n c hn),
      advancePtr_eq_mod n c hc, Nat.mod_add_mod]
    congr 1
    omega

/-- C5: the collector's rotating cursor.  (1) A channel inspection advances the
cursor by exactly one worker id, wrapping modulo the worker count; (2) over any
window of `n` consecutive channel inspections starting at cursor `c`, every
worker id is inspected exactly once; (3) inside `_collect_responses`, an
inspection that finds no pending message continues the loop with exactly the
advanced cursor, the rest of the state untouched (the cursor is saved back into
the state at round end and never reset, so it persists across calls). -/
theorem rotating_cursor_fairness (n c : ℕ) (hc : c < n) :
    advancePtr n c = (c + 1) % n ∧
    (∀ i, i < n → ∃! k, k < n ∧ inspectSeq n c k = i) ∧
    (∀ (nObs fuel cnt : ℕ) (st : MgrState) (obs : List ObsBlock) (pids : List ℕ),
      st.bufferPtr = c → st.queues.length = n → st.queues.getD c [] = [] →
      cnt < nObs →
      collectLoop nObs (fuel + 1) st cnt obs pids =
        collectLoop nObs fuel { st with bufferPtr := advancePtr n c } cnt obs pids) := by
  have hn : 0 < n := by omega
  refine ⟨advancePtr_eq_mod n c hc, ?_, ?_⟩
  · intro i hi
    refine ⟨(n + i - c) % n, ⟨Nat.mod_lt _ hn, ?_⟩, ?_⟩
    · rw [inspectSeq_eq_mod n _ c hc, Nat.add_mod_mod]
      have hni : c + (n + i - c) = n + i := by omega
      rw [hni, Nat.add_mod_left, Nat.mod_eq_of_lt hi]
    · rintro k' ⟨hk', hik'⟩
      rw [inspectSeq_eq_mod n k' c hc] at hik'
      have h2 : (c + ((n + i - c) % n)) % n = i := by
        rw [Nat.add_mod_mod]
        have hni : c + (n + i - c) = n + i := by omega
        rw [hni, Nat.add_mod_left, Nat.mod_eq_of_lt hi]
      have hmod : (c + k') % n = (c + (n + i - c) % n) % n := by rw [hik', h2]
      have hcan : k' ≡ (n + i - c) % n [MOD n] :=
        Nat.ModEq.add_left_cancel' c hmod
      have := hcan.eq_of_lt_of_lt hk' (Nat.mod_lt _ hn)
      exact this
  · intro nObs fuel cnt st obs pids hb hlen hq hcnt
    rw [collectLoop, if_pos hcnt]
    simp only [hb, hlen, hq]

/-- C5 witness: three workers, cursor at `1`. -/
theorem rotating_cursor_fairness_witness :
    (1 < 3) ∧
    (advancePtr 3 1 = (1 + 1) % 3 ∧
      (∀ i, i < 3 → ∃! k, k < 3 ∧ inspectSeq 3 1 k = i) ∧
      (∀ (nObs fuel cnt : ℕ) (st : MgrState) (obs : List ObsBlock) (pids : List ℕ),
        st.bufferPtr = 1 → st.queues.length = 3 → st.queues.getD 1 [] = [] →
        cnt < nObs →
        collectLoop nObs (fuel + 1) st cnt obs pids =
          collectLoop nObs fuel { st with bufferPtr := advancePtr 3 1 } cnt obs pids)) :=
  ⟨by decide, rotating_cursor_fairness 3 1 (by decide)⟩

theorem collectLoop_count_ge (nObs : ℕ) :
    ∀ (fuel : ℕ) (st : MgrState) (cnt : ℕ) (obs : List ObsBlock) (pids : List ℕ)
      (st' : MgrState) (c : ℕ) (obs' : List ObsBlock) (pids' : List ℕ),
      collectLoop nObs fuel st cnt obs pids = .finished st' c obs' pids' →
      nObs ≤ c := by
  intro fuel
  induction fuel with
  | zero =>
    intro st cnt obs pids st' c obs' pids' h
    rw [collectLoop] at h
    simp at h
  | succ fuel ih =>
    intro st cnt obs pids st' c obs' pids' h
    rw [collectLoop] at h
    by_cases hlt : cnt < nObs
    · rw [if_pos hlt] at h
      dsimp only at h
      split at h
      · exact ih _ _ _ _ _ _ _ _ h
      · split at h
        · split at h
          · simp at h
          · exact ih _ _ _ _ _ _ _ _ h
        · exact ih _ _ _ _ _ _ _ _ h
    · rw [if_neg hlt] at h
      cases h
      omega

/-- C3: a collection round's threshold is
`min(configured_min_inference_size, n_workers)` whenever at least one worker
exists (so the round never waits for more simultaneous messages than there are
workers), the round's loop exits exactly when the running count reaches that
threshold — immediately once `cnt` is at least the threshold, and any finished
round's count is at least it — and each decoded env-step-data message bumps
the count by `n_agents` (by `1` in the single-agent branch). -/
theorem collection_round_min_count (m w : ℕ) (hw : 1 ≤ w) :
    nObsPerInference m w = min m w ∧
    min m w ≤ w ∧
    (∀ (fuel : ℕ) (st : MgrState) (cnt : ℕ) (obs : List ObsBlock)
      (pids : List ℕ) (st' : MgrState) (c : ℕ) (obs' : List ObsBlock)
      (pids' : List ℕ),
      collectLoop (min m w) fuel st cnt obs pids = .finished st' c obs' pids' →
      min m w ≤ c) ∧
    (∀ (fuel cnt : ℕ) (st : MgrState) (obs : List ObsBlock) (pids : List ℕ),
      min m w ≤ cnt →
      collectLoop (min m w) (fuel + 1) st cnt obs pids = .finished st cnt obs pids) ∧
    (∀ (st : MgrState) (pid : ℕ) (d : StepData),
      (applyStepData st pid d).2 = if 1 < d.nAgents then d.nAgents else 1) := by
  refine ⟨?_, Nat.min_le_right m w, fun fuel => collectLoop_count_ge (min m w) fuel,
    ?_, ?_⟩
  · rw [nObsPerInference, Nat.max_eq_right hw]
  · intro fuel cnt st obs pids hge
    rw [collectLoop, if_neg (by omega)]
  · intro st pid d
    rw [applyStepData]
    split <;> rfl

/-- C3 witness: `min_inference_size = 8` with `2` workers. -/
theorem collection_round_min_count_witness :
    (1 ≤ 2) ∧
    (nObsPerInference 8 2 = min 8 2 ∧
      min 8 2 ≤ 2 ∧
      (∀ (fuel : ℕ) (st : MgrState) (cnt : ℕ) (obs : List ObsBlock)
        (pids : List ℕ) (st' : MgrState) (c : ℕ) (obs' : List ObsBlock)
        (pids' : List ℕ),
        collectLoop (min 8 2) fuel st cnt obs pids = .finished st' c obs' pids' →
        min 8 2 ≤ c) ∧
      (∀ (fuel cnt : ℕ) (st : MgrState) (obs : List ObsBlock) (pids : List ℕ),
        min 8 2 ≤ cnt →
        collectLoop (min 8 2) (fuel + 1) st cnt obs pids = .finished st cnt obs pids) ∧
      (∀ (st : MgrState) (pid : ℕ) (d : StepData),
        (applyStepData st pid d).2 = if 1 < d.nAgents then d.nAgents else 1)) :=
  ⟨by decide, collection_round_min_count 8 2 (by decide)⟩

theorem applyStepData_queues (st : MgrState) (pid : ℕ) (d : StepData) :
    (applyStepData st pid d).1.queues = st.queues := by
  rw [applyStepData]
  split <;> rfl

theorem mem_getD_set (qs : List (List RawMsg)) (pid p : ℕ) (msg : RawMsg)
    (rest : List RawMsg) (hq : qs.getD pid [] = msg :: rest) (m : RawMsg)
    (hm : m ∈ (qs.set pid rest).getD p []) : m ∈ qs.getD p [] := by
  have hlt : pid < qs.length := by
    by_contra hge
    rw [List.getD_eq_default _ _ (by omega)] at hq
    exact List.noConfusion hq
  by_cases hp : p = pid
  · subst hp
    have hset : (qs.set p rest).getD p [] = rest := by
      rw [List.getD_eq_getElem _ _ (by simpa using hlt)]
      exact List.getElem_set_self _
    rw [hset] at hm
    rw [hq]
    exact List.mem_cons_of_mem _ hm
  · rw [List.getD_eq_getElem?_getD, List.getElem?_set_ne (fun he => hp he.symm)] at hm
    rwa [List.getD_eq_getElem?_getD]

theorem collectLoop_pairwise (nObs : ℕ) :
    ∀ (fuel : ℕ) (st : MgrState) (cnt : ℕ) (obs : List ObsBlock) (pids : List ℕ)
      (st' : MgrState) (c : ℕ) (obs' : List ObsBlock) (pids' : List ℕ),
      collectLoop nObs fuel st cnt obs pids = .finished st' c obs' pids' →
      ∃ l : List (ObsBlock × ℕ),
        obs' = obs ++ l.map Prod.fst ∧ pids' = pids ++ l.map Prod.snd ∧
        ∀ pr ∈ l, pr.2 < st.queues.length ∧
          ∃ m ∈ st.queues.getD pr.2 [], m.header = ENV_STEP_DATA_HEADER0 ∧
            ∃ d, decodeEnvStepData m.payload = .ok d ∧ pr.1 = d.nextObs := by
  intro fuel
  induction fuel with
  | zero =>
    intro st cnt obs pids st' c obs' pids' h
    rw [collectLoop] at h
    simp at h
  | succ fuel ih =>
    intro st cnt obs pids st' c obs' pids' h
    rw [collectLoop] at h
    by_cases hlt : cnt < nObs
    · rw [if_pos hlt] at h
      dsimp only at h
      split at h
      · obtain ⟨l', hobs, hpids, horig⟩ := ih _ _ _ _ _ _ _ _ h
        exact ⟨l', hobs, hpids, horig⟩
      · next msg rest heq =>
        split at h
        · next hh =>
          split at h
          · simp at h
          · next d hd =>
            obtain ⟨l', hobs, hpids, horig⟩ := ih _ _ _ _ _ _ _ _ h
            refine ⟨(d.nextObs, st.bufferPtr) :: l', ?_, ?_, ?_⟩
            · rw [hobs]
              simp
            · rw [hpids]
              simp
            · have hqlen :
                (applyStepData
                  { queues := st.queues.set st.bufferPtr rest,
                    bufferPtr := advancePtr st.queues.length st.bufferPtr,
                    epRews := st.epRews, averageReward := st.averageReward }
                  st.bufferPtr d).1.queues = st.queues.set st.bufferPtr rest :=
                applyStepData_queues _ _ _
              have hblt : st.bufferPtr < st.queues.length := by
                by_contra hge
                rw [List.getD_eq_default _ _ (by omega)] at heq
                exact List.noConfusion heq
              intro pr hpr
              rcases List.mem_cons.mp hpr with rfl | hpr
              · refine ⟨hblt, msg, ?_, hh, d, hd, rfl⟩
                rw [heq]
                exact List.mem_cons_self _ _
              · obtain ⟨hplt, m, hmem, hmh, d', hd', hfst⟩ := horig pr hpr
                rw [hqlen] at hplt hmem
                rw [List.length_set] at hplt
                exact ⟨hplt, m, mem_getD_set st.queues st.bufferPtr pr.2 msg rest heq m hmem,
                  hmh, d', hd', hfst⟩
        · next hh =>
          obtain ⟨l', hobs, hpids, horig⟩ := ih _ _ _ _ _ _ _ _ h
          refine ⟨l', hobs, hpids, ?_⟩
          intro pr hpr
          obtain ⟨hplt, m, hmem, hmh, d', hd', hfst⟩ := horig pr hpr
          rw [List.length_set] at hplt
          exact ⟨hplt, m, mem_getD_set st.queues st.bufferPtr pr.2 msg rest heq m hmem,
            hmh, d', hd', hfst⟩
    · rw [if_neg hlt] at h
      cases h
      exact ⟨[], by simp, by simp, by simp⟩

theorem sliceSends_map_fst {α : Type} (actions : List α) :
    ∀ (pairs : List (ℕ × ℕ)) (step : ℕ),
      (sliceSends actions pairs step).map Prod.fst = pairs.map Prod.fst := by
  intro pairs
  induction pairs with
  | nil => intro step; rfl
  | cons p ps ih =>
    intro step
    obtain ⟨pid, d⟩ := p
    rw [sliceSends, List.map_cons, List.map_cons, ih]

/-- C10: the observation list and the worker-id list built by a collection
round stay in lockstep: a finished round extends both lists by the same pairs
appended one per decoded env-step-data message (the observation is that
message's decoded next observation, the id that of the worker whose queue held
the message), so both lists have equal length; and the send phase
(`_send_actions`) consumes them pairwise in that order, emitting one
policy-actions message per worker id in list order. -/
theorem current_obs_pids_lockstep (nObs fuel cnt : ℕ) (st st' : MgrState)
    (obs obs' : List ObsBlock) (pids pids' : List ℕ) (c : ℕ)
    (hlen : obs.length = pids.length)
    (h : collectLoop nObs fuel st cnt obs pids = .finished st' c obs' pids') :
    obs'.length = pids'.length ∧
    (∃ l : List (ObsBlock × ℕ),
      obs' = obs ++ l.map Prod.fst ∧ pids' = pids ++ l.map Prod.snd ∧
      ∀ pr ∈ l, pr.2 < st.queues.length ∧
        ∃ m ∈ st.queues.getD pr.2 [], m.header = ENV_STEP_DATA_HEADER0 ∧
          ∃ d, decodeEnvStepData m.payload = .ok d ∧ pr.1 = d.nextObs) ∧
    (∀ (actions : List (List ℚ)),
      (sendActions pids' obs' actions).map Prod.fst = pids') := by
  obtain ⟨l, hobs, hpids, horig⟩ := collectLoop_pairwise nObs fuel st cnt obs pids st' c obs' pids' h
  have hlen' : obs'.length = pids'.length := by
    rw [hobs, hpids]
    simp [hlen]
  refine ⟨hlen', ⟨l, hobs, hpids, horig⟩, ?_⟩
  intro actions
  rw [sendActions, sliceSends_map_fst]
  exact List.map_fst_zip _ _ (by simp [hlen'])

set_option maxHeartbeats 2000000 in
/-- C10 witness: one worker holding one well-formed single-agent message. -/
theorem current_obs_pids_lockstep_witness :
    (([] : List ObsBlock).length = ([] : List ℕ).length) ∧
    (([(([7], [1, 1]) : ObsBlock)]).length = ([0] : List ℕ).length ∧
      (∃ l : List (ObsBlock × ℕ),
        [(([7], [1, 1]) : ObsBlock)] = [] ++ l.map Prod.fst ∧
        [0] = [] ++ l.map Prod.snd ∧
        ∀ pr ∈ l,
          pr.2 < (MgrState.mk [[RawMsg.mk 2 [0, 1, 1, 5, 7]]] 0 [[0]] none).queues.length ∧
          ∃ m ∈ (MgrState.mk [[RawMsg.mk 2 [0, 1, 1, 5, 7]]] 0 [[0]] none).queues.getD pr.2 [],
            m.header = ENV_STEP_DATA_HEADER0 ∧
            ∃ d, decodeEnvStepData m.payload = .ok d ∧ pr.1 = d.nextObs) ∧
      (∀ (actions : List (List ℚ)),
        (sendActions [0] [(([7], [1, 1]) : ObsBlock)] actions).map Prod.fst = [0])) :=
  ⟨rfl,
    current_obs_pids_lockstep 1 2 0
      (MgrState.mk [[RawMsg.mk 2 [0, 1, 1, 5, 7]]] 0 [[0]] none)
      (MgrState.mk [[]] 0 [[5]] none) [] [([7], [1, 1])] [] [0] 1 rfl
      (by norm_num [collectLoop, advancePtr, applyStepData, accumulateRews,
        updateAverageReward, decodeEnvStepData, ratTruncToNat, reshapeCheck,
        ENV_STEP_DATA_HEADER0])⟩

/-- C6 (amended): inside `_collect_responses`, a received message with an
unrecognized header is discarded silently (no logging) and the loop simply
continues polling with the advanced cursor; but an env-step-data message whose
declared shape-dimension count exceeds the payload, or whose decoded element
count mismatches the expected layout, raises an uncaught exception that aborts
the whole collection call — it is not fatal merely to that message. -/
theorem protocol_error_handling_amended (nObs fuel cnt : ℕ) (st : MgrState)
    (obs : List ObsBlock) (pids : List ℕ) (msg : RawMsg) (rest : List RawMsg)
    (e : DecodeErr)
    (hq : st.queues.getD st.bufferPtr [] = msg :: rest) (hcnt : cnt < nObs) :
    (msg.header ≠ ENV_STEP_DATA_HEADER0 →
      collectLoop nObs (fuel + 1) st cnt obs pids =
        collectLoop nObs fuel
          { st with bufferPtr := advancePtr st.queues.length st.bufferPtr,
                    queues := st.queues.set st.bufferPtr rest } cnt obs pids) ∧
    (msg.header = ENV_STEP_DATA_HEADER0 →
      decodeEnvStepData msg.payload = .error e →
      collectLoop nObs (fuel + 1) st cnt obs pids = .err e) := by
  constructor
  · intro hh
    rw [collectLoop, if_pos hcnt]
    simp only [hq, if_neg hh]
  · intro hh hd
    rw [collectLoop, if_pos hcnt]
    simp only [hq, if_pos hh, hd]

set_option maxHeartbeats 2000000 in
/-- C6 counterexample: worker 0 holds an env-step-data message whose declared
shape-dimension count (5) exceeds the payload, worker 1 holds a well-formed
message.  The claim says the loop discards the bad message, logs, and
continues polling (so it would finish having collected worker 1's message);
the code instead aborts the whole collection call with the uncaught reshape
error. -/
theorem protocol_error_aborts_counterexample :
    collectLoop 1 5
        (MgrState.mk [[RawMsg.mk 2 [0, 5, 2, 3]], [RawMsg.mk 2 [0, 1, 1, 5, 7]]]
          0 [[0], [0]] none) 0 [] []
      = .err .reshapeError ∧
    ∀ (st' : MgrState) (c : ℕ) (obs' : List ObsBlock) (pids' : List ℕ),
      collectLoop 1 5
          (MgrState.mk [[RawMsg.mk 2 [0, 5, 2, 3]], [RawMsg.mk 2 [0, 1, 1, 5, 7]]]
            0 [[0], [0]] none) 0 [] []
        ≠ .finished st' c obs' pids' := by
  have h : collectLoop 1 5
      (MgrState.mk [[RawMsg.mk 2 [0, 5, 2, 3]], [RawMsg.mk 2 [0, 1, 1, 5, 7]]]
        0 [[0], [0]] none) 0 [] [] = .err .reshapeError := by
    decide
  refine ⟨h, fun st' c obs' pids' hcon => ?_⟩
  rw [h] at hcon
  exact LoopResult.noConfusion hcon

/-- C6 witness: a stop-header message (header ≠ env-step-data) is skipped, and
a malformed env-step-data message aborts. -/
theorem protocol_error_handling_amended_witness :
    ((MgrState.mk [[RawMsg.mk 9 [3, 3]]] 0 [[0]] none).queues.getD
        (MgrState.mk [[RawMsg.mk 9 [3, 3]]] 0 [[0]] none).bufferPtr []
      = RawMsg.mk 9 [3, 3] :: [] ∧ (0 : ℕ) < 1) ∧
    ((RawMsg.mk 9 [3, 3]).header ≠ ENV_STEP_DATA_HEADER0 →
      collectLoop 1 (3 + 1) (MgrState.mk [[RawMsg.mk 9 [3, 3]]] 0 [[0]] none) 0 [] [] =
        collectLoop 1 3
          { MgrState.mk [[RawMsg.mk 9 [3, 3]]] 0 [[0]] none with
              bufferPtr :=
                advancePtr (MgrState.mk [[RawMsg.mk 9 [3, 3]]] 0 [[0]] none).queues.length
                  (MgrState.mk [[RawMsg.mk 9 [3, 3]]] 0 [[0]] none).bufferPtr,
              queues :=
                (MgrState.mk [[RawMsg.mk 9 [3, 3]]] 0 [[0]] none).queues.set
                  (MgrState.mk [[RawMsg.mk 9 [3, 3]]] 0 [[0]] none).bufferPtr [] }
          0 [] []) ∧
    ((RawMsg.mk 9 [3, 3]).header = ENV_STEP_DATA_HEADER0 →
      decodeEnvStepData (RawMsg.mk 9 [3, 3]).payload = .error .indexError →
      collectLoop 1 (3 + 1) (MgrState.mk [[RawMsg.mk 9 [3, 3]]] 0 [[0]] none) 0 [] [] =
        .err .indexError) :=
  ⟨⟨by decide, by decide⟩,
    protocol_error_handling_amended 1 3 0
      (MgrState.mk [[RawMsg.mk 9 [3, 3]]] 0 [[0]] none) [] []
      (RawMsg.mk 9 [3, 3]) [] .indexError (by decide) (by decide)⟩

theorem sliceSends_spec {α : Type} (actions : List α) :
    ∀ (ps ds : List ℕ) (step : ℕ), ps.length = ds.length →
      (actions.drop step).length = ds.sum →
      ((sliceSends actions (ps.zip ds) step).map fun s => s.2.length) = ds ∧
      ((sliceSends actions (ps.zip ds) step).map Prod.snd).flatten
        = actions.drop step := by
  intro ps
  induction ps with
  | nil =>
    intro ds step hl hs
    cases ds with
    | nil =>
      have h0 : actions.drop step = [] :=
        List.eq_nil_of_length_eq_zero (by simpa using hs)
      simp [sliceSends, h0]
    | cons d ds' => simp at hl
  | cons p ps ih =>
    intro ds step hl hs
    cases ds with
    | nil => simp at hl
    | cons d ds' =>
      rw [List.zip_cons_cons, sliceSends]
      have hdlen : ((actions.drop step).take d).length = d := by
        rw [List.length_take, hs, List.sum_cons]
        omega
      have hs' : (actions.drop (step + d)).length = ds'.sum := by
        rw [List.length_drop] at hs ⊢
        simp at hs
        omega
      obtain ⟨ih1, ih2⟩ := ih ds' (step + d) (by simpa using hl) hs'
      refine ⟨by simp [hdlen, ih1], ?_⟩
      rw [List.map_cons, List.flatten_cons, ih2]
      have : actions.drop (step + d) = (actions.drop step).drop d := by
        rw [List.drop_drop, Nat.add_comm]
      rw [this, List.take_append_drop]

/-- C7 (amended): after the single batched inference call, `_send_actions`
splits the action batch by the recorded per-worker block sizes in the original
worker order — when the returned batch's length equals the dispatched size,
worker `i` receives exactly its `dimensions[i]`-row slice and the slices
concatenate back to the whole batch.  No size check is performed: a mismatched
batch is NOT a fatal error (see the counterexample), the slices are simply
clamped. -/
theorem send_actions_split_amended {α : Type} (pids : List ℕ)
    (currentObs : List ObsBlock) (actions : List α)
    (hlen : pids.length = currentObs.length)
    (hsz : actions.length = (currentObs.map fun o => o.2.headD 0).sum) :
    (sendActions pids currentObs actions).map Prod.fst = pids ∧
    ((sendActions pids currentObs actions).map fun s => s.2.length)
      = currentObs.map (fun o => o.2.headD 0) ∧
    ((sendActions pids currentObs actions).map Prod.snd).flatten = actions := by
  rw [sendActions]
  have hl : pids.length = (currentObs.map fun o => o.2.headD 0).length := by
    simp [hlen]
  have hs : (actions.drop 0).length = (currentObs.map fun o => o.2.headD 0).sum := by
    simpa using hsz
  obtain ⟨h2, h3⟩ := sliceSends_spec actions pids _ 0 hl hs
  exact ⟨by rw [sliceSends_map_fst]; exact List.map_fst_zip _ _ (le_of_eq hl),
    h2, by simpa using h3⟩

/-- C7 counterexample: the policy returns a 2-row batch against a dispatched
size of 4 (two workers of 2 rows each).  The claim says this mismatch is a
fatal error aborting the collection call; `_send_actions` has no size check:
it completes normally, sending worker 0 the whole short batch and worker 1 an
empty action block. -/
theorem batch_mismatch_not_fatal_counterexample :
    sendActions [0, 1]
        [(([0, 0, 0, 0], [2, 2]) : ObsBlock), (([0, 0, 0, 0], [2, 2]) : ObsBlock)]
        [[(10 : ℚ)], [20]]
      = [(0, [[10], [20]]), (1, [])] ∧
    [[(10 : ℚ)], [20]].length ≠
      ([(([0, 0, 0, 0], [2, 2]) : ObsBlock), (([0, 0, 0, 0], [2, 2]) : ObsBlock)].map
        fun o => o.2.headD 0).sum := by
  constructor
  · decide
  · decide

/-- C7 witness: a correctly sized batch of 3 rows split as 1 + 2. -/
theorem send_actions_split_amended_witness :
    (([0, 1] : List ℕ).length =
        [(([5], [1, 1]) : ObsBlock), (([6, 7], [2, 1]) : ObsBlock)].length ∧
      ([10, 20, 30] : List ℕ).length =
        ([(([5], [1, 1]) : ObsBlock), (([6, 7], [2, 1]) : ObsBlock)].map
          fun o => o.2.headD 0).sum) ∧
    ((sendActions [0, 1]
        [(([5], [1, 1]) : ObsBlock), (([6, 7], [2, 1]) : ObsBlock)]
        ([10, 20, 30] : List ℕ)).map Prod.fst = [0, 1] ∧
      ((sendActions [0, 1]
        [(([5], [1, 1]) : ObsBlock), (([6, 7], [2, 1]) : ObsBlock)]
        ([10, 20, 30] : List ℕ)).map fun s => s.2.length)
        = [(([5], [1, 1]) : ObsBlock), (([6, 7], [2, 1]) : ObsBlock)].map
            (fun o => o.2.headD 0) ∧
      ((sendActions [0, 1]
        [(([5], [1, 1]) : ObsBlock), (([6, 7], [2, 1]) : ObsBlock)]
        ([10, 20, 30] : List ℕ)).map Prod.snd).flatten = [10, 20, 30]) :=
  ⟨⟨by decide, by decide⟩,
    send_actions_split_amended [0, 1]
      [(([5], [1, 1]) : ObsBlock), (([6, 7], [2, 1]) : ObsBlock)]
      [10, 20, 30] (by decide) (by decide)⟩

/-- C9: the forced end-of-collection flush never adds records from an empty
buffer: an empty trajectory buffer yields no segments at all, removing it from
the buffer list leaves every flattened output array unchanged (it contributes
no segment, in particular no zero-length segment), and — as long as every
episode-closed segment is nonempty, which holds since segments are closed only
when a step is appended — every segment a buffer yields is nonempty. -/
theorem empty_buffer_flushes_to_nothing (t : BatchedTrajectory)
    (l1 l2 : List BatchedTrajectory)
    (hne : ∀ s ∈ t.completedSegs, s ≠ []) :
    BatchedTrajectory.getAll emptyTrajectory = [] ∧
    flattenSegments (l1 ++ emptyTrajectory :: l2) = flattenSegments (l1 ++ l2) ∧
    flattenDones (l1 ++ emptyTrajectory :: l2) = flattenDones (l1 ++ l2) ∧
    flattenTruncated (l1 ++ emptyTrajectory :: l2)
      = flattenTruncated (l1 ++ l2) ∧
    (∀ s ∈ t.getAll, s ≠ []) := by
  have hempty : BatchedTrajectory.getAll emptyTrajectory = [] := by
    rw [BatchedTrajectory.getAll, emptyTrajectory]
    simp
  have hseg : flattenSegments (l1 ++ emptyTrajectory :: l2)
      = flattenSegments (l1 ++ l2) := by
    rw [flattenSegments, flattenSegments]
    simp [hempty]
  refine ⟨hempty, hseg, by rw [flattenDones, flattenDones, hseg],
    by rw [flattenTruncated, flattenTruncated, hseg], ?_⟩
  intro s hs
  rw [BatchedTrajectory.getAll] at hs
  rcases List.mem_append.mp hs with hs | hs
  · exact hne s hs
  · by_cases hp : t.pendingSeg = []
    · rw [if_pos hp] at hs
      simp at hs
    · rw [if_neg hp] at hs
      rw [List.mem_singleton] at hs
      rw [hs]
      exact hp

/-- C9 witness: a buffer with one nonempty completed segment. -/
theorem empty_buffer_flushes_to_nothing_witness :
    (∀ s ∈ (BatchedTrajectory.mk [[Step.mk [1] [2] 3 4 [5] 1]] []).completedSegs,
      s ≠ []) ∧
    (BatchedTrajectory.getAll emptyTrajectory = [] ∧
      flattenSegments ([] ++ emptyTrajectory :: []) = flattenSegments ([] ++ []) ∧
      flattenDones ([] ++ emptyTrajectory :: []) = flattenDones ([] ++ []) ∧
      flattenTruncated ([] ++ emptyTrajectory :: [])
        = flattenTruncated ([] ++ []) ∧
      (∀ s ∈ (BatchedTrajectory.mk [[Step.mk [1] [2] 3 4 [5] 1]] []).getAll,
        s ≠ [])) :=
  ⟨by decide,
    empty_buffer_flushes_to_nothing
      (BatchedTrajectory.mk [[Step.mk [1] [2] 3 4 [5] 1]] []) [] [] (by decide)⟩

theorem ratTruncToNat_natCast (n : ℕ) : ratTruncToNat (n : ℚ) = n := by
  rw [ratTruncToNat]
  simp

theorem map_ratTruncToNat_cast (dims : List ℕ) :
    (dims.map fun d : ℕ => (d : ℚ)).map ratTruncToNat = dims := by
  induction dims with
  | nil => rfl
  | cons a l ih => simp only [List.map_cons, ratTruncToNat_natCast, ih]

/-- C8: decoding an env-step-data payload `[done, n_shape_dims, shape_dims...,
rewards, next_state]` sets `n_agents` to `shape_dims[0]` when
`n_shape_dims > 1`, and otherwise sets it to `1` with the state shape coerced
to `[1, shape_dims[0]]`; the next `n_agents` elements after the shape dims are
taken as the rewards and the remainder is reshaped to the state shape as the
next observation. -/
theorem env_step_decode_layout (done : ℚ) (dims : List ℕ) (rews obsData : List ℚ)
    (hdims : dims ≠ [])
    (hrews : rews.length = (if 1 < dims.length then dims.headD 0 else 1))
    (hobs : obsData.length
      = (if dims.length = 1 then [1, dims.headD 0] else dims).prod) :
    decodeEnvStepData
        (done :: ((dims.length : ℕ) : ℚ)
          :: ((dims.map fun d : ℕ => (d : ℚ)) ++ rews ++ obsData))
      = .ok ⟨done,
          if dims.length = 1 then [1, dims.headD 0] else dims,
          if 1 < dims.length then dims.headD 0 else 1,
          rews,
          (obsData, if dims.length = 1 then [1, dims.headD 0] else dims)⟩ := by
  obtain ⟨s0, dtl, rfl⟩ : ∃ s0 dtl, dims = s0 :: dtl := by
    cases dims with
    | nil => exact absurd rfl hdims
    | cons a l => exact ⟨a, l, rfl⟩
  cases dtl with
  | nil =>
    obtain ⟨r0, rfl⟩ : ∃ r0, rews = [r0] :=
      List.length_eq_one.mp (by simpa using hrews)
    have hobs2 : obsData.length = s0 := by simpa using hobs
    have hr1 : ratTruncToNat 1 = 1 := by decide
    rw [decodeEnvStepData]
    simp [hr1, ratTruncToNat_natCast, reshapeCheck, hobs2]
  | cons d1 dtl' =>
    have hrews' : rews.length = s0 := by
      simpa using hrews
    have hA : ((s0 :: d1 :: dtl').map fun d : ℕ => (d : ℚ)).length
        = (s0 :: d1 :: dtl').length := by
      simp
    have hrest : ((s0 :: d1 :: dtl').map fun d : ℕ => (d : ℚ)) ++ rews ++ obsData
        = ((s0 :: d1 :: dtl').map fun d : ℕ => (d : ℚ)) ++ (rews ++ obsData) := by
      rw [List.append_assoc]
    have htake :
        (((s0 :: d1 :: dtl').map fun d : ℕ => (d : ℚ)) ++ (rews ++ obsData)).take
            (s0 :: d1 :: dtl').length
          = (s0 :: d1 :: dtl').map fun d : ℕ => (d : ℚ) := List.take_left' hA
    have hdrop :
        (((s0 :: d1 :: dtl').map fun d : ℕ => (d : ℚ)) ++ (rews ++ obsData)).drop
            (s0 :: d1 :: dtl').length
          = rews ++ obsData := List.drop_left' hA
    have hrtake : (rews ++ obsData).take s0 = rews := List.take_left' hrews'
    have hrdrop : (rews ++ obsData).drop s0 = obsData := List.drop_left' hrews'
    have hne1 : (s0 :: d1 :: dtl').length ≠ 1 := by
      rw [List.length_cons, List.length_cons]
      omega
    have hlt1 : 1 < (s0 :: d1 :: dtl').length := by
      rw [List.length_cons, List.length_cons]
      omega
    have hobs' : obsData.length = (s0 :: d1 :: dtl').prod := by
      rw [hobs, if_neg hne1]
    have hdd :
        (((s0 :: d1 :: dtl').map fun d : ℕ => (d : ℚ)) ++ (rews ++ obsData)).drop
            ((s0 :: d1 :: dtl').length + s0)
          = obsData := by
      rw [← List.drop_drop, hdrop, hrdrop]
    rw [decodeEnvStepData]
    simp only [hrest, ratTruncToNat_natCast, htake, hdrop, map_ratTruncToNat_cast]
    simp only [if_neg hne1, if_pos hlt1, reshapeCheck]
    rw [hdd, hrtake, if_pos hobs']
    simp

/-- C8 witness: a multi-agent message with state shape `[3, 2]` (3 agents of
observation width 2), rewards `[4, 5, 6]`, and a 6-element flattened next
state. -/
theorem env_step_decode_layout_witness :
    (([3, 2] : List ℕ) ≠ [] ∧
      ([4, 5, 6] : List ℚ).length
        = (if 1 < ([3, 2] : List ℕ).length then ([3, 2] : List ℕ).headD 0 else 1) ∧
      ([1, 2, 3, 4, 5, 6] : List ℚ).length
        = (if ([3, 2] : List ℕ).length = 1
            then [1, ([3, 2] : List ℕ).headD 0] else [3, 2]).prod) ∧
    decodeEnvStepData
        ((1 : ℚ) :: ((([3, 2] : List ℕ).length : ℕ) : ℚ)
          :: ((([3, 2] : List ℕ).map fun d : ℕ => (d : ℚ))
              ++ [4, 5, 6] ++ [1, 2, 3, 4, 5, 6]))
      = .ok ⟨1,
          if ([3, 2] : List ℕ).length = 1
            then [1, ([3, 2] : List ℕ).headD 0] else [3, 2],
          if 1 < ([3, 2] : List ℕ).length then ([3, 2] : List ℕ).headD 0 else 1,
          [4, 5, 6],
          ([1, 2, 3, 4, 5, 6],
            if ([3, 2] : List ℕ).length = 1
              then [1, ([3, 2] : List ℕ).headD 0] else [3, 2])⟩ :=
  ⟨⟨by decide, by decide, by decide⟩,
    env_step_decode_layout 1 [3, 2] [4, 5, 6] [1, 2, 3, 4, 5, 6]
      (by decide) (by decide) (by decide)⟩
